import Mathlib

/-!
Verification of the quickssh terminal SSH-host manager against its
specification.  The repository ships three variants of the program:

* `src/main.go`   — cursor-based UI (namespace `Main1` below);
* `src/main2.go`  — bubbles-list UI with an add wizard (namespace `Main2`);
* `src/unnamed/part_000` — bubbles-list UI with random-host generation
  (namespace `Part0`).

Each Go function that the claims touch is embedded as a Lean definition,
keeping names and field order of the source.  Machine integers that can
go negative (the cursor) are modelled as `Int`; Go slices are `List`s;
fallible operations return `Except`/`Option`.
-/

set_option maxHeartbeats 1000000

/-- One SSH host record, the `SSHHost` struct shared by all three variants
(`part_000` names the last field `Desc`, the other two `Description`). -/
structure SSHHost where
  Host : String
  HostName : String
  User : String
  ForwardAgent : Bool
  Tags : List String
  Description : String
deriving DecidableEq, Repr

/-- The persisted configuration, struct `Config`: a single list of hosts. -/
structure Config where
  Hosts : List SSHHost
deriving DecidableEq, Repr

/-- Go's `strings.Split(s, ",")` on one comma delimiter, on the character
list: the empty input yields one empty piece, a trailing comma yields a
trailing empty piece. -/
def splitCommaAux : List Char → List Char → List (List Char)
  | [], acc => [acc.reverse]
  | c :: rest, acc =>
    if c = ',' then acc.reverse :: splitCommaAux rest []
    else splitCommaAux rest (c :: acc)

/-- Go's `strings.Split(s, ",")` as used by the wizard's Tags field. -/
def splitComma (s : String) : List String :=
  (splitCommaAux s.toList []).map (fun l => String.mk l)

namespace Main1

/-- The `model` struct of `src/main.go`: backing `entries`, the rendered
`choices`, a cursor (Go `int`, so modelled as `Int`), the `selected` index
set (a `map[int]struct{}`, modelled as the list of its keys; the program
never inserts into it), the wizard's `inputBuffer` (always six strings)
and `inputField`, and the `isAdding` flag. -/
structure Model where
  entries : List SSHHost
  choices : List String
  cursor : Int
  selected : List Nat
  inputBuffer : List String
  inputField : Nat
  isAdding : Bool
deriving DecidableEq, Repr

/-- `initialModel` of `src/main.go`: choices are the host names, entries the
loaded hosts, everything else zeroed. -/
def initialModel (config : Config) : Model :=
  { entries := config.Hosts
    choices := config.Hosts.map (fun e => e.Host)
    cursor := 0
    selected := []
    inputBuffer := ["", "", "", "", "", ""]
    inputField := 0
    isAdding := false }

/-- `main` of `src/main.go` up to constructing the UI model.  `loadConfig`
returns `(nil, err)` on a missing or malformed file; `main` prints the
error but then evaluates `*cfg` on the nil pointer, which panics.  The
panic is modelled as `Except.error`. -/
def startup (load : Except String Config) : Except String Model :=
  match load with
  | Except.error _ => Except.error "invalid memory address or nil pointer dereference"
  | Except.ok cfg => Except.ok (initialModel cfg)

/-- The `SSHHost` assembled by the wizard's final `KeyEnter` in
`src/main.go`: buffer 3 must be exactly "true" for `ForwardAgent`; the
Tags buffer (index 4) is ignored — the source writes `Tags: []string{}`. -/
def newHostFromBuffer (buf : List String) : SSHHost :=
  { Host := buf.getD 0 ""
    HostName := buf.getD 1 ""
    User := buf.getD 2 ""
    ForwardAgent := buf.getD 3 "" == "true"
    Tags := []
    Description := buf.getD 5 "" }

/-- The `tea.KeyEnter` branch of `Update` while `isAdding` in `src/main.go`:
increments `inputField`; once past the last field it assembles the record,
appends it to `entries` and `choices`, leaves adding mode and saves the
config.  The `Bool` records whether `saveConfig` was invoked. -/
def addEnter (m : Model) : Model × Bool :=
  let f := m.inputField + 1
  if f ≥ 6 then
    let newHost := newHostFromBuffer m.inputBuffer
    ({ m with
        entries := m.entries ++ [newHost]
        choices := m.choices ++ [newHost.Host]
        isAdding := false
        inputField := f }, true)
  else
    ({ m with inputField := f }, false)

/-- The `"d"` branch of `Update` in `src/main.go`: when `entries` is
non-empty, remove the record at the cursor index from `entries` and
`choices`, decrement the cursor when it now points past the end and is
positive, and save; otherwise do nothing.  The `Bool` records whether
`saveConfig` was invoked. -/
def dHandler (m : Model) : Model × Bool :=
  if m.entries.length > 0 then
    let index := m.cursor.toNat
    let entries := m.entries.eraseIdx index
    let choices := m.choices.eraseIdx index
    let cursor :=
      if m.cursor ≥ (entries.length : Int) ∧ m.cursor > 0 then m.cursor - 1
      else m.cursor
    ({ m with entries := entries, choices := choices, cursor := cursor }, true)
  else
    (m, false)

/-- The connection argument built by the `"enter"` branch:
`entry.User + "@" + entry.HostName`. -/
def connectArg (entry : SSHHost) : String :=
  entry.User ++ "@" ++ entry.HostName

/-- The `"enter"`/`" "` branch of `Update` in `src/main.go`: picks the entry
at a selected index if `selected` is non-empty, else `m.entries[m.cursor]`
with no bounds check — Go panics with an index-out-of-range runtime error
when the index is invalid, modelled as `Except.error`.  On success it
returns the argument handed to `exec.Command("ssh", …)`. -/
def enterHandler (m : Model) : Except String String :=
  match m.selected with
  | i :: _ =>
    match m.entries.get? i with
    | none => Except.error "runtime error: index out of range"
    | some entry => Except.ok (connectArg entry)
  | [] =>
    match m.entries.get? m.cursor.toNat with
    | none => Except.error "runtime error: index out of range"
    | some entry => Except.ok (connectArg entry)

end Main1

namespace Main2

/-- The `SSHHost` assembled by the wizard's final `KeyEnter` in
`src/main2.go`: identical to the `main.go` variant except that the Tags
buffer is split on commas (`strings.Split(m.inputBuffer[4], ",")`). -/
def newHostFromBuffer (buf : List String) : SSHHost :=
  { Host := buf.getD 0 ""
    HostName := buf.getD 1 ""
    User := buf.getD 2 ""
    ForwardAgent := buf.getD 3 "" == "true"
    Tags := splitComma (buf.getD 4 "")
    Description := buf.getD 5 "" }

/-- The commit step of the wizard in `src/main2.go`, restricted to the
state it touches: given the six buffers and the current backing `entries`,
it appends the assembled record and invokes `saveConfig` (the `Bool`). -/
def addCommit (entries : List SSHHost) (buf : List String) :
    List SSHHost × Bool :=
  (entries ++ [newHostFromBuffer buf], true)

/-- The `"enter"` branch of `Update` in `src/main2.go`: the type assertion
`m.list.SelectedItem().(sshItem)` with the `, ok` form yields no entry on
an empty list, in which case nothing is launched; otherwise the argument
`entry.User + "@" + entry.HostName` is handed to `exec.Command("ssh", …)`. -/
def enterHandler (sel : Option SSHHost) : Option String :=
  sel.map (fun entry => entry.User ++ "@" ++ entry.HostName)

end Main2

namespace Part0

/-- The slice of the `model` struct of `src/unnamed/part_000` that the
claims touch: the bubbles list's items (`visible`, the visible projection)
with its cursor `index`, and the backing `hosts` slice. -/
structure Model where
  visible : List SSHHost
  hosts : List SSHHost
  index : Nat
deriving DecidableEq, Repr

/-- `newModel` of `src/unnamed/part_000` up to constructing the model: on a
load failure it prints the error and then evaluates `cfg.Hosts` on the nil
`*Config`, which panics (modelled as `Except.error`); on success the list
items and the backing slice are both the loaded hosts. -/
def newModel (load : Except String Config) : Except String Model :=
  match load with
  | Except.error _ => Except.error "invalid memory address or nil pointer dereference"
  | Except.ok cfg => Except.ok { visible := cfg.Hosts, hosts := cfg.Hosts, index := 0 }

/-- The `insertItem` branch of `Update` in `src/unnamed/part_000`:
`m.hosts = append(m.hosts, newHost)` appends to the backing slice, while
`m.list.InsertItem(0, newHost)` puts the record at the front of the
visible projection. -/
def insertUpdate (m : Model) (newHost : SSHHost) : Model :=
  { visible := newHost :: m.visible
    hosts := m.hosts ++ [newHost]
    index := m.index }

/-- The `deleteItem` branch of `Update` in `src/unnamed/part_000`:
`currentItem` is the selected visible item; `m.list.RemoveItem(m.list.Index())`
removes the single item at the cursor from the visible projection, and the
rebuild loop keeps exactly the backing records whose `Host` differs from
`currentItem.Host`.  On an empty list `SelectedItem().(SSHHost)` is a
panicking type assertion; the model leaves the state unchanged there,
which is only ever used to make the step function total. -/
def deleteUpdate (m : Model) : Model :=
  match m.visible.get? m.index with
  | none => m
  | some currentItem =>
    { visible := m.visible.eraseIdx m.index
      hosts := m.hosts.filter (fun p => p.Host != currentItem.Host)
      index := m.index }

/-- One top-level key event of `src/unnamed/part_000` relevant to the
insert/delete count invariant: an `a` press inserting a (random) record,
or a `d` press deleting at a given cursor position. -/
inductive Op where
  | insert (r : SSHHost)
  | delete (i : Nat)
deriving DecidableEq, Repr

/-- Dispatch one operation. -/
def step (m : Model) : Op → Model
  | Op.insert r => insertUpdate m r
  | Op.delete i => deleteUpdate { m with index := i }

/-- Run a sequence of operations. -/
def exec (m : Model) : List Op → Model
  | [] => m
  | op :: ops => exec (step m op) ops

/-- The host keys of the records inserted by a sequence of operations. -/
def insertKeys : List Op → List String
  | [] => []
  | Op.insert r :: ops => r.Host :: insertKeys ops
  | Op.delete _ :: ops => insertKeys ops

/-- The initial state over a loaded host list: `newModel` seeds the list
items and the backing slice with the same sequence. -/
def initState (hosts : List SSHHost) : Model :=
  { visible := hosts, hosts := hosts, index := 0 }

end Part0

/-! Sample records used by concrete counterexamples and witnesses. -/

/-- A sample host with key "a". -/
def hostA : SSHHost :=
  { Host := "a", HostName := "h1", User := "u1", ForwardAgent := false,
    Tags := [], Description := "first" }

/-- A second, distinct sample host that shares the key "a" with `hostA`. -/
def hostA2 : SSHHost :=
  { Host := "a", HostName := "h2", User := "u2", ForwardAgent := true,
    Tags := [], Description := "second" }

/-- A sample host with key "b". -/
def hostB : SSHHost :=
  { Host := "b", HostName := "h3", User := "u3", ForwardAgent := false,
    Tags := ["t"], Description := "third" }

/-- The six wizard buffers of the scenario in the spec. -/
def specBuffers : List String :=
  ["box1", "1.2.3.4", "alice", "true", "dev,prod", "test box"]

/-- The host record the spec expects from those buffers. -/
def specRecord : SSHHost :=
  { Host := "box1", HostName := "1.2.3.4", User := "alice",
    ForwardAgent := true, Tags := ["dev", "prod"], Description := "test box" }

/-- C1: on a store-load failure both startup paths print the error and then
dereference the nil config pointer, so the process panics instead of
starting the UI with an empty host list: for every load error the modelled
startup of src/main.go and the modelled newModel of src/unnamed/part_000
return the nil-pointer panic, not a model. -/
theorem c1_load_failure_panics (e : String) :
    Main1.startup (Except.error e) =
      Except.error "invalid memory address or nil pointer dereference" ∧
    Part0.newModel (Except.error e) =
      Except.error "invalid memory address or nil pointer dereference" :=
  ⟨rfl, rfl⟩

/-- C2 counterexample: in the src/main.go variant, committing the six
buffers of the spec scenario appends a record whose tags are empty (the
Tags buffer is ignored), not the record with tags dev and prod that the
claim asserts. -/
theorem c2_counterexample :
    (Main1.addEnter
        { entries := [], choices := [], cursor := 0, selected := [],
          inputBuffer := specBuffers, inputField := 5, isAdding := true }).1.entries
      ≠ [specRecord] ∧
    (Main1.addEnter
        { entries := [], choices := [], cursor := 0, selected := [],
          inputBuffer := specBuffers, inputField := 5, isAdding := true }).1.entries
      = [{ specRecord with Tags := [] }] := by
  constructor
  · decide
  · decide

/-- C2 amended: committing the six spec buffers appends the assembled
record at the end of the backing sequence and triggers a save in both
variants; in src/main2.go the record is exactly the one the claim states
(tags split on commas), while in src/main.go the Tags buffer is ignored
and the record carries an empty tag list. -/
theorem c2_amended_commit (es : List SSHHost) (cs : List String)
    (cur : Int) (sel : List Nat) :
    Main2.addCommit es specBuffers = (es ++ [specRecord], true) ∧
    Main2.newHostFromBuffer specBuffers = specRecord ∧
    Main1.addEnter
        { entries := es, choices := cs, cursor := cur, selected := sel,
          inputBuffer := specBuffers, inputField := 5, isAdding := true } =
      ({ entries := es ++ [{ specRecord with Tags := [] }],
         choices := cs ++ ["box1"], cursor := cur, selected := sel,
         inputBuffer := specBuffers, inputField := 6, isAdding := false }, true) :=
  ⟨rfl, rfl, rfl⟩

/-- C3 counterexample: with two records sharing the host key "a" and the
cursor on the first, pressing delete in src/unnamed/part_000 empties the
backing sequence: the later duplicate is removed as well, not left in
place as the claim asserts. -/
theorem c3_counterexample :
    (Part0.deleteUpdate
        { visible := [hostA, hostA2], hosts := [hostA, hostA2], index := 0 }).hosts
      = [] ∧
    (Part0.deleteUpdate
        { visible := [hostA, hostA2], hosts := [hostA, hostA2], index := 0 }).hosts
      ≠ [hostA2] ∧
    hostA2.Host = hostA.Host ∧ hostA2 ≠ hostA := by
  refine ⟨by decide, by decide, by decide, by decide⟩

/-- C3 amended: the delete-selected operation of src/unnamed/part_000
removes from the backing sequence every record whose host key equals the
selected record's key — no duplicate survives — while removing only the
single item at the cursor index from the visible projection. -/
theorem c3_delete_removes_all_matches (m : Part0.Model) (sel : SSHHost)
    (h : m.visible.get? m.index = some sel) :
    (Part0.deleteUpdate m).hosts
        = m.hosts.filter (fun p => p.Host != sel.Host) ∧
    (∀ p ∈ (Part0.deleteUpdate m).hosts, p.Host ≠ sel.Host) ∧
    (Part0.deleteUpdate m).visible = m.visible.eraseIdx m.index := by
  unfold Part0.deleteUpdate
  rw [h]
  refine ⟨rfl, ?_, rfl⟩
  intro p hp
  have := List.of_mem_filter hp
  simpa using this

/-- C3 witness: the amended theorem applied to the concrete duplicate
state of the counterexample. -/
theorem c3_witness :
    (Part0.deleteUpdate
        { visible := [hostA, hostA2], hosts := [hostA, hostA2], index := 0 }).hosts
        = [hostA, hostA2].filter (fun p => p.Host != hostA.Host) ∧
    (∀ p ∈ (Part0.deleteUpdate
        { visible := [hostA, hostA2], hosts := [hostA, hostA2], index := 0 }).hosts,
      p.Host ≠ hostA.Host) ∧
    (Part0.deleteUpdate
        { visible := [hostA, hostA2], hosts := [hostA, hostA2], index := 0 }).visible
        = [hostA, hostA2].eraseIdx 0 :=
  c3_delete_removes_all_matches
    { visible := [hostA, hostA2], hosts := [hostA, hostA2], index := 0 }
    hostA rfl

/-- C4 counterexample: the random-generate add of src/unnamed/part_000
appends to the backing sequence, so with one prior record the new record
is the last, not the first, element of the backing sequence. -/
theorem c4_counterexample :
    (Part0.insertUpdate
        { visible := [hostB], hosts := [hostB], index := 0 } hostA).hosts.head?
      = some hostB ∧ hostB ≠ hostA := by
  refine ⟨by decide, by decide⟩

/-- C4 amended: the add command of src/unnamed/part_000 inserts the new
record at index 0 of the visible projection but appends it at the end of
the backing sequence, so the backing sequence has it as its last element. -/
theorem c4_insert_front_visible_back_hosts (m : Part0.Model) (r : SSHHost) :
    (Part0.insertUpdate m r).visible = r :: m.visible ∧
    (Part0.insertUpdate m r).hosts = m.hosts ++ [r] ∧
    (Part0.insertUpdate m r).hosts.getLast? = some r :=
  ⟨rfl, rfl, List.getLast?_concat m.hosts⟩

/-- C6: with zero host records, the src/main.go connect handler evaluates
entries at the cursor with no bounds check and panics with an
index-out-of-range runtime error instead of returning no selection; the
src/main2.go variant really does yield no entry and launches nothing. -/
theorem c6_empty_connect_crashes :
    Main1.enterHandler (Main1.initialModel { Hosts := [] }) =
      Except.error "runtime error: index out of range" ∧
    Main2.enterHandler none = none :=
  ⟨rfl, rfl⟩

/-- C9: for every selected record the session launcher builds exactly
user, a literal at sign, then hostname, with no validation of empty
fields; in particular user alice with hostname 1.2.3.4 yields
alice at 1.2.3.4. -/
theorem c9_connect_argument (entry : SSHHost) :
    Main2.enterHandler (some entry)
        = some (entry.User ++ "@" ++ entry.HostName) ∧
    Main1.connectArg entry = entry.User ++ "@" ++ entry.HostName ∧
    Main1.connectArg
        { Host := "box1", HostName := "1.2.3.4", User := "alice",
          ForwardAgent := true, Tags := [], Description := "" }
      = "alice@1.2.3.4" :=
  ⟨rfl, rfl, rfl⟩

/-- C10: pressing delete in src/main.go with an empty backing sequence is
a complete no-op: the model is returned unchanged and no save happens. -/
theorem c10_delete_on_empty_noop (m : Main1.Model) (h : m.entries = []) :
    Main1.dHandler m = (m, false) := by
  unfold Main1.dHandler
  rw [h]
  rfl

/-- C10 witness: the no-op theorem at the freshly initialised empty model. -/
theorem c10_witness :
    Main1.dHandler (Main1.initialModel { Hosts := [] })
      = (Main1.initialModel { Hosts := [] }, false) :=
  c10_delete_on_empty_noop (Main1.initialModel { Hosts := [] }) rfl

/-- A one-record model of src/main.go used by concrete witnesses. -/
def oneHostModel : Main1.Model :=
  { entries := [hostA], choices := ["a"], cursor := 0, selected := [],
    inputBuffer := ["", "", "", "", "", ""], inputField := 0, isAdding := false }

/-- C7: whenever the cursor is valid before a delete in src/main.go, after
the delete it is never negative and never past the new end of the
sequence; deleting the last remaining record leaves the backing sequence
empty and the cursor at index 0. -/
theorem c7_cursor_clamped_after_delete (m : Main1.Model)
    (h0 : 0 ≤ m.cursor) (h1 : m.cursor < (m.entries.length : Int)) :
    0 ≤ ((Main1.dHandler m).1).cursor ∧
    (((Main1.dHandler m).1).entries ≠ [] →
      ((Main1.dHandler m).1).cursor < (((Main1.dHandler m).1).entries.length : Int)) ∧
    (m.entries.length = 1 →
      ((Main1.dHandler m).1).entries = [] ∧ ((Main1.dHandler m).1).cursor = 0) := by
  have hn : 0 < m.entries.length := by omega
  have hidx : m.cursor.toNat < m.entries.length := by omega
  have hlen : (m.entries.eraseIdx m.cursor.toNat).length = m.entries.length - 1 :=
    List.length_eraseIdx_of_lt hidx
  unfold Main1.dHandler
  rw [if_pos hn]
  dsimp only
  split
  next hc =>
    obtain ⟨hge, hpos⟩ := hc
    refine ⟨by omega, ?_, ?_⟩
    · intro hne
      have hl : 0 < (m.entries.eraseIdx m.cursor.toNat).length := List.length_pos.mpr hne
      omega
    · intro h2
      exfalso
      omega
  next hc =>
    refine ⟨h0, ?_, ?_⟩
    · intro hne
      have hl : 0 < (m.entries.eraseIdx m.cursor.toNat).length := List.length_pos.mpr hne
      omega
    · intro h2
      exact ⟨List.length_eq_zero.mp (by omega), by omega⟩

/-- C7 witness: the clamping theorem at a one-record model with the cursor
on that record: the delete empties the sequence and the cursor stays 0. -/
theorem c7_witness :
    0 ≤ ((Main1.dHandler oneHostModel).1).cursor ∧
    (((Main1.dHandler oneHostModel).1).entries ≠ [] →
      ((Main1.dHandler oneHostModel).1).cursor
        < (((Main1.dHandler oneHostModel).1).entries.length : Int)) ∧
    (oneHostModel.entries.length = 1 →
      ((Main1.dHandler oneHostModel).1).entries = [] ∧
      ((Main1.dHandler oneHostModel).1).cursor = 0) :=
  c7_cursor_clamped_after_delete oneHostModel (by decide) (by decide)

/-! Helper development for the visible-count/backing-count invariant of
src/unnamed/part_000 (claim C5): the host keys of the two sequences stay
a permutation of one another as long as inserted keys are fresh. -/

/-- The host keys of a record list, in order. -/
def hostKeys (l : List SSHHost) : List String := l.map (fun p => p.Host)

theorem hostKeys_cons (p : SSHHost) (l : List SSHHost) :
    hostKeys (p :: l) = p.Host :: hostKeys l := rfl

theorem hostKeys_append (l₁ l₂ : List SSHHost) :
    hostKeys (l₁ ++ l₂) = hostKeys l₁ ++ hostKeys l₂ :=
  List.map_append _ _ _

theorem hostKeys_length (l : List SSHHost) : (hostKeys l).length = l.length :=
  List.length_map _ _

theorem hostKeys_filter (k : String) (l : List SSHHost) :
    hostKeys (l.filter (fun p => p.Host != k))
      = (hostKeys l).filter (fun s => s != k) := by
  induction l with
  | nil => rfl
  | cons p rest ih =>
    cases hpk : p.Host != k with
    | false => simp [List.filter_cons, hpk, hostKeys_cons, ih]
    | true => simp [List.filter_cons, hpk, hostKeys_cons, ih]

theorem hostKeys_get? (l : List SSHHost) (i : Nat) :
    (hostKeys l).get? i = (l.get? i).map (fun p => p.Host) := by
  induction l generalizing i with
  | nil => cases i <;> rfl
  | cons p rest ih =>
    cases i with
    | zero => rfl
    | succ j => exact ih j

theorem hostKeys_eraseIdx (l : List SSHHost) (i : Nat) :
    hostKeys (l.eraseIdx i) = (hostKeys l).eraseIdx i := by
  induction l generalizing i with
  | nil => cases i <;> rfl
  | cons p rest ih =>
    cases i with
    | zero => rfl
    | succ j =>
      show p.Host :: hostKeys (rest.eraseIdx j) = p.Host :: (hostKeys rest).eraseIdx j
      rw [ih j]

/-- Erasing the element at a position of a duplicate-free list is the same
as filtering out its (unique) value. -/
theorem eraseIdx_eq_filter_of_nodup (l : List String) (i : Nat) (k : String)
    (hn : l.Nodup) (hk : l.get? i = some k) :
    l.eraseIdx i = l.filter (fun s => s != k) := by
  induction l generalizing i with
  | nil => simp at hk
  | cons a rest ih =>
    rcases List.nodup_cons.mp hn with ⟨ha, hrest⟩
    cases i with
    | zero =>
      have hak : a = k := by simpa using hk
      subst hak
      have hfr : rest.filter (fun s => s != a) = rest :=
        List.filter_eq_self.mpr (fun b hb => by
          simp only [bne_iff_ne, ne_eq, decide_eq_true_eq]
          exact fun hba => ha (hba ▸ hb))
      simp [List.filter_cons, hfr]
    | succ j =>
      have hk' : rest.get? j = some k := by simpa using hk
      have hkm : k ∈ rest := List.get?_mem hk'
      have hak : (a != k) = true := by
        simp only [bne_iff_ne, ne_eq, decide_eq_true_eq]
        exact fun hek => ha (hek ▸ hkm)
      simp [List.filter_cons, hak, ih j hrest hk']

theorem deleteUpdate_none (m : Part0.Model)
    (hv : m.visible.get? m.index = none) : Part0.deleteUpdate m = m := by
  unfold Part0.deleteUpdate
  rw [hv]

theorem deleteUpdate_some (m : Part0.Model) (sel : SSHHost)
    (hv : m.visible.get? m.index = some sel) :
    Part0.deleteUpdate m =
      { visible := m.visible.eraseIdx m.index
        hosts := m.hosts.filter (fun p => p.Host != sel.Host)
        index := m.index } := by
  unfold Part0.deleteUpdate
  rw [hv]

/-- Along any run whose inserted host keys are fresh, the host keys of the
visible projection stay a permutation of those of the backing sequence. -/
theorem exec_perm (ops : List Part0.Op) :
    ∀ m : Part0.Model,
      List.Perm (hostKeys m.visible) (hostKeys m.hosts) →
      (hostKeys m.visible ++ Part0.insertKeys ops).Nodup →
      List.Perm (hostKeys (Part0.exec m ops).visible)
        (hostKeys (Part0.exec m ops).hosts) := by
  induction ops with
  | nil => intro m hp _; exact hp
  | cons op rest ih =>
    intro m hp hnd
    cases op with
    | insert r =>
      apply ih
      · show List.Perm (hostKeys (r :: m.visible)) (hostKeys (m.hosts ++ [r]))
        rw [hostKeys_cons, hostKeys_append]
        exact (hp.cons r.Host).trans
          (List.perm_append_singleton r.Host (hostKeys m.hosts)).symm
      · show (hostKeys (r :: m.visible) ++ Part0.insertKeys rest).Nodup
        rw [hostKeys_cons]
        exact List.perm_middle.nodup hnd
    | delete i =>
      cases hv : m.visible.get? i with
      | none =>
        have hstep : Part0.step m (Part0.Op.delete i) = { m with index := i } :=
          deleteUpdate_none { m with index := i } hv
        show List.Perm
          (hostKeys (Part0.exec (Part0.step m (Part0.Op.delete i)) rest).visible)
          (hostKeys (Part0.exec (Part0.step m (Part0.Op.delete i)) rest).hosts)
        rw [hstep]
        exact ih _ hp hnd
      | some sel =>
        have hstep : Part0.step m (Part0.Op.delete i) =
            { visible := m.visible.eraseIdx i
              hosts := m.hosts.filter (fun p => p.Host != sel.Host)
              index := i } :=
          deleteUpdate_some { m with index := i } sel hv
        show List.Perm
          (hostKeys (Part0.exec (Part0.step m (Part0.Op.delete i)) rest).visible)
          (hostKeys (Part0.exec (Part0.step m (Part0.Op.delete i)) rest).hosts)
        rw [hstep]
        have hkvn : (hostKeys m.visible).Nodup := hnd.of_append_left
        have hkv : (hostKeys m.visible).get? i = some sel.Host := by
          rw [hostKeys_get?, hv]
          rfl
        have hev : hostKeys (m.visible.eraseIdx i)
            = (hostKeys m.visible).filter (fun s => s != sel.Host) := by
          rw [hostKeys_eraseIdx]
          exact eraseIdx_eq_filter_of_nodup _ i sel.Host hkvn hkv
        apply ih
        · show List.Perm (hostKeys (m.visible.eraseIdx i))
            (hostKeys (m.hosts.filter (fun p => p.Host != sel.Host)))
          rw [hev, hostKeys_filter]
          exact hp.filter _
        · show (hostKeys (m.visible.eraseIdx i) ++ Part0.insertKeys rest).Nodup
          have hsub : List.Sublist (hostKeys (m.visible.eraseIdx i))
              (hostKeys m.visible) := by
            rw [hostKeys_eraseIdx]
            exact List.eraseIdx_sublist _ i
          exact (hsub.append_right _).nodup hnd

/-- C5 counterexample: from the empty initial state, inserting two records
that share the host key "a" and then deleting at cursor 0 (no filter ever
being active) leaves one visible item but an empty backing sequence: the
counts differ. -/
theorem c5_counterexample :
    (Part0.exec (Part0.initState [])
        [Part0.Op.insert hostA, Part0.Op.insert hostA2, Part0.Op.delete 0]).visible.length
      ≠ (Part0.exec (Part0.initState [])
        [Part0.Op.insert hostA, Part0.Op.insert hostA2, Part0.Op.delete 0]).hosts.length := by
  decide

/-- C5 amended: for every sequence of insert and delete operations from a
loaded initial state, provided the loaded and inserted host keys are
pairwise distinct, the visible item count equals the backing sequence
count whenever no filter is active (the modelled operations are exactly
the no-filter key events). -/
theorem c5_count_invariant (start : List SSHHost) (ops : List Part0.Op)
    (h : (hostKeys start ++ Part0.insertKeys ops).Nodup) :
    (Part0.exec (Part0.initState start) ops).visible.length
      = (Part0.exec (Part0.initState start) ops).hosts.length := by
  have hp := exec_perm ops (Part0.initState start) (List.Perm.refl _) h
  have hl := hp.length_eq
  simpa [hostKeys_length] using hl

/-- C5 witness: the invariant at a concrete run with distinct keys — two
inserts and a delete from the empty state. -/
theorem c5_witness :
    (hostKeys [] ++ Part0.insertKeys
        [Part0.Op.insert hostA, Part0.Op.insert hostB, Part0.Op.delete 0]).Nodup ∧
    (Part0.exec (Part0.initState [])
        [Part0.Op.insert hostA, Part0.Op.insert hostB, Part0.Op.delete 0]).visible.length
      = (Part0.exec (Part0.initState [])
        [Part0.Op.insert hostA, Part0.Op.insert hostB, Part0.Op.delete 0]).hosts.length :=
  ⟨by decide, c5_count_invariant []
    [Part0.Op.insert hostA, Part0.Op.insert hostB, Part0.Op.delete 0] (by decide)⟩

namespace Store

/-- Modelled from the spec: the on-disk serialization format codec (the
external BurntSushi/toml library used by `loadConfig`/`saveConfig`) is not
part of this repository; the spec treats it as a load/save function over a
structured record.  The persisted file is modelled as a structured TOML
value: a table of key/value pairs, strings, booleans and arrays. -/
inductive TomlValue where
  | str (s : String)
  | boolean (b : Bool)
  | arr (vs : List TomlValue)
  | table (fields : List (String × TomlValue))

/-- Key lookup in a TOML table, first match wins. -/
def lookupKey (fields : List (String × TomlValue)) (k : String) : Option TomlValue :=
  match fields with
  | [] => none
  | (k', v) :: rest => if k' = k then some v else lookupKey rest k

/-- Decode a TOML array of strings (the `tags` field). -/
def decodeStringList : List TomlValue → Option (List String)
  | [] => some []
  | TomlValue.str s :: rest => (decodeStringList rest).map (fun l => s :: l)
  | _ => none

/-- Modelled from the spec: encoding of one host record under the TOML
keys of the source struct tags (`host`, `hostname`, `user`,
`forward_agent`, `tags`, `description`), as `saveConfig` serialises it. -/
def encodeHost (h : SSHHost) : TomlValue :=
  TomlValue.table
    [("host", TomlValue.str h.Host),
     ("hostname", TomlValue.str h.HostName),
     ("user", TomlValue.str h.User),
     ("forward_agent", TomlValue.boolean h.ForwardAgent),
     ("tags", TomlValue.arr (h.Tags.map TomlValue.str)),
     ("description", TomlValue.str h.Description)]

/-- Modelled from the spec: decoding of one host record, by key lookup as
`toml.DecodeFile` populates the tagged struct fields. -/
def decodeHost (v : TomlValue) : Option SSHHost :=
  match v with
  | TomlValue.table fields =>
    match lookupKey fields "host", lookupKey fields "hostname",
          lookupKey fields "user", lookupKey fields "forward_agent",
          lookupKey fields "tags", lookupKey fields "description" with
    | some (TomlValue.str h), some (TomlValue.str hn), some (TomlValue.str u),
      some (TomlValue.boolean fa), some (TomlValue.arr ts),
      some (TomlValue.str d) =>
      match decodeStringList ts with
      | some tags =>
        some { Host := h, HostName := hn, User := u, ForwardAgent := fa,
               Tags := tags, Description := d }
      | none => none
    | _, _, _, _, _, _ => none
  | _ => none

/-- Decode the list under the top-level `hosts` key. -/
def decodeHosts : List TomlValue → Option (List SSHHost)
  | [] => some []
  | v :: rest =>
    match decodeHost v with
    | some h => (decodeHosts rest).map (fun l => h :: l)
    | none => none

/-- `saveConfig`: the file content written for a config — one top-level
`hosts` list of encoded records (the whole file is overwritten). -/
def saveConfig (config : Config) : TomlValue :=
  TomlValue.table [("hosts", TomlValue.arr (config.Hosts.map encodeHost))]

/-- `loadConfig`: reads the file content back into a config, or fails on a
malformed value. -/
def loadConfig (v : TomlValue) : Option Config :=
  match v with
  | TomlValue.table fields =>
    match lookupKey fields "hosts" with
    | some (TomlValue.arr vs) =>
      match decodeHosts vs with
      | some hosts => some { Hosts := hosts }
      | none => none
    | _ => none
  | _ => none

theorem decodeStringList_map (l : List String) :
    decodeStringList (l.map TomlValue.str) = some l := by
  induction l with
  | nil => rfl
  | cons s rest ih => simp [decodeStringList, ih]

theorem decodeHost_encodeHost (h : SSHHost) :
    decodeHost (encodeHost h) = some h := by
  cases h with
  | mk H HN U FA T D =>
    simp [decodeHost, encodeHost, lookupKey, decodeStringList_map]

theorem decodeHosts_map (l : List SSHHost) :
    decodeHosts (l.map encodeHost) = some l := by
  induction l with
  | nil => rfl
  | cons h rest ih => simp [decodeHosts, decodeHost_encodeHost, ih]

end Store

/-- C8: saving any sequence of host records to the store and loading it
back yields the same sequence in content and order — load after save is
the identity on host-record sequences. -/
theorem c8_save_load_round_trip (hosts : List SSHHost) :
    Store.loadConfig (Store.saveConfig { Hosts := hosts })
      = some { Hosts := hosts } := by
  simp [Store.loadConfig, Store.saveConfig, Store.lookupKey, Store.decodeHosts_map]
